import Mathlib

/-!
Verification of the clinic patient-record management program (`src/1.py`):
a shallow embedding of its data model and operations, with theorems
checking the specification's claims against the code.

The program is a console CRUD application over an in-memory list of
`Patient` dataclass instances, persisted as one JSON snapshot
(`patients.json`).  The embedding keeps the source's names
(`load_patients`, `save_patients`, `get_next_id`, `edit_patient`,
`delete_patient`, `display_all_patients`, `display_statistics`, ...);
console prompts are modelled as explicit string arguments, and file and
JSON-text I/O at the JSON-value level.
-/

/-- The `Patient` dataclass of the source: fourteen attributes in
declaration order; `middle_name` and `email` are `Optional[str]`
(Python `None` is `Option.none` here). -/
structure Patient where
  id : Int
  last_name : String
  first_name : String
  middle_name : Option String
  birth_date : String
  gender : String
  address : String
  phone : String
  email : Option String
  insurance_number : String
  registration_date : String
  medical_history : String
  diagnosis : String
  attending_doctor : String
  deriving DecidableEq, Repr

/-- JSON values, the image of Python's `json.dump` / `json.load`.  The
on-disk snapshot is the JSON text of such a value; with
`ensure_ascii=False` and UTF-8 the `json` library round-trips values to
text losslessly (arbitrary natural-language strings included), so the
adapter is embedded at the value level.  Object field lists model Python
dicts, whose keys are unique and iterate in insertion order. -/
inductive Json where
  | null
  | str (s : String)
  | int (n : Int)
  | arr (elems : List Json)
  | obj (fields : List (String × Json))
  deriving Repr

/-- An optional string as JSON: Python `None` serializes to `null`. -/
def optStr : Option String → Json
  | none => Json.null
  | some s => Json.str s

/-- `dataclasses.asdict` on one `Patient`: an object with the fourteen
field names in declaration order. -/
def Patient.asdict (p : Patient) : Json :=
  Json.obj
    [ ("id", Json.int p.id),
      ("last_name", Json.str p.last_name),
      ("first_name", Json.str p.first_name),
      ("middle_name", optStr p.middle_name),
      ("birth_date", Json.str p.birth_date),
      ("gender", Json.str p.gender),
      ("address", Json.str p.address),
      ("phone", Json.str p.phone),
      ("email", optStr p.email),
      ("insurance_number", Json.str p.insurance_number),
      ("registration_date", Json.str p.registration_date),
      ("medical_history", Json.str p.medical_history),
      ("diagnosis", Json.str p.diagnosis),
      ("attending_doctor", Json.str p.attending_doctor) ]

/-- The value `save_patients` writes: the JSON array
`[asdict(patient) for patient in self.patients]`. -/
def save_patients (ps : List Patient) : Json :=
  Json.arr (ps.map Patient.asdict)

/-- Dict lookup on a decoded JSON object's field list. -/
def jGet : List (String × Json) → String → Option Json
  | [], _ => none
  | (k, v) :: rest, key => if k = key then some v else jGet rest key

/-- One loaded record as `Patient(**patient)` builds it: the dataclass
constructor performs no type validation of the values, so each of the
fourteen attributes holds whatever JSON value the dict supplied. -/
structure RawPatient where
  id : Json
  last_name : Json
  first_name : Json
  middle_name : Json
  birth_date : Json
  gender : Json
  address : Json
  phone : Json
  email : Json
  insurance_number : Json
  registration_date : Json
  medical_history : Json
  diagnosis : Json
  attending_doctor : Json
  deriving Repr

/-- `Patient(**patient)` on one decoded JSON object: keyword expansion
requires the dict's keys to be exactly the fourteen field names — a
missing key or an extra key raises `TypeError` (`none` here; with the
dict's keys unique, fourteen entries that answer all fourteen lookups
are exactly the fourteen names) — and the values are taken as they are,
unchecked. -/
def patientOfJson : Json → Option RawPatient
  | Json.obj fs =>
    if fs.length = 14 then do
      let id ← jGet fs "id"
      let last_name ← jGet fs "last_name"
      let first_name ← jGet fs "first_name"
      let middle_name ← jGet fs "middle_name"
      let birth_date ← jGet fs "birth_date"
      let gender ← jGet fs "gender"
      let address ← jGet fs "address"
      let phone ← jGet fs "phone"
      let email ← jGet fs "email"
      let insurance_number ← jGet fs "insurance_number"
      let registration_date ← jGet fs "registration_date"
      let medical_history ← jGet fs "medical_history"
      let diagnosis ← jGet fs "diagnosis"
      let attending_doctor ← jGet fs "attending_doctor"
      some { id, last_name, first_name, middle_name, birth_date, gender,
             address, phone, email, insurance_number, registration_date,
             medical_history, diagnosis, attending_doctor }
    else none
  | _ => none

/-- The list comprehension `[Patient(**patient) for patient in data]`
over a list: every element must be a constructible dict, otherwise the
comprehension raises. -/
def patientsOfJsonList : List Json → Option (List RawPatient)
  | [] => some []
  | j :: rest => do
    let p ← patientOfJson j
    let ps ← patientsOfJsonList rest
    some (p :: ps)

/-- `load_patients`' parse of the file's JSON value: the comprehension
iterates `data` — a list yields its elements, a dict its keys, a string
its characters, anything else raises `TypeError`.  A dict key or a
character is a string, not a mapping, so `Patient(**...)` raises on any
non-empty dict or string; the empty dict and the empty string iterate to
nothing and load as an empty collection. -/
def load_patients (j : Json) : Option (List RawPatient) :=
  match j with
  | Json.arr elems => patientsOfJsonList elems
  | Json.obj [] => some []
  | Json.str "" => some []
  | _ => none

/-- The loaded image of a well-formed record: each attribute holds
exactly the JSON value the record's attribute serialized to (`json`
decodes that value back as the original int, string or `None`). -/
def Patient.asRaw (p : Patient) : RawPatient :=
  { id := Json.int p.id,
    last_name := Json.str p.last_name,
    first_name := Json.str p.first_name,
    middle_name := optStr p.middle_name,
    birth_date := Json.str p.birth_date,
    gender := Json.str p.gender,
    address := Json.str p.address,
    phone := Json.str p.phone,
    email := optStr p.email,
    insurance_number := Json.str p.insurance_number,
    registration_date := Json.str p.registration_date,
    medical_history := Json.str p.medical_history,
    diagnosis := Json.str p.diagnosis,
    attending_doctor := Json.str p.attending_doctor }

theorem patientOfJson_asdict (p : Patient) :
    patientOfJson p.asdict = some p.asRaw := rfl

theorem optStr_inj {a b : Option String} (h : optStr a = optStr b) : a = b := by
  cases a <;> cases b <;> simp_all [optStr]

theorem asRaw_inj (p q : Patient) (h : p.asRaw = q.asRaw) : p = q := by
  cases p
  cases q
  simp only [Patient.asRaw, RawPatient.mk.injEq, Json.int.injEq, Json.str.injEq,
    Patient.mk.injEq] at *
  exact ⟨h.1, h.2.1, h.2.2.1, optStr_inj h.2.2.2.1, h.2.2.2.2.1, h.2.2.2.2.2.1,
    h.2.2.2.2.2.2.1, h.2.2.2.2.2.2.2.1, optStr_inj h.2.2.2.2.2.2.2.2.1,
    h.2.2.2.2.2.2.2.2.2.1, h.2.2.2.2.2.2.2.2.2.2.1, h.2.2.2.2.2.2.2.2.2.2.2.1,
    h.2.2.2.2.2.2.2.2.2.2.2.2.1, h.2.2.2.2.2.2.2.2.2.2.2.2.2⟩

/-- C1: saving any well-formed record sequence and loading it back
yields, record for record, the object whose every attribute is exactly
the original attribute's value (`Patient.asRaw`) — and that image
determines the records uniquely, so nothing is lost: presence/absence of
the optional `middle_name` and `email` fields is preserved (`None` ↔
`null`), and strings are arbitrary, so non-ASCII text in any field is
covered (`ensure_ascii=False` / UTF-8 keep the JSON text level
lossless). -/
theorem load_save_roundtrip (ps : List Patient) :
    load_patients (save_patients ps) = some (ps.map Patient.asRaw) ∧
    ∀ qs : List Patient, ps.map Patient.asRaw = qs.map Patient.asRaw → ps = qs := by
  constructor
  · induction ps with
    | nil => rfl
    | cons p rest ih =>
      simp only [save_patients, List.map_cons, load_patients, patientsOfJsonList,
        patientOfJson_asdict] at *
      simp [ih]
  · intro qs h
    exact List.map_injective_iff.mpr (fun a b hab => asRaw_inj a b hab) h

/-- Python `str.strip()`: drop whitespace from both ends. -/
def pyStrip (s : String) : String :=
  String.mk (((s.data.dropWhile Char.isWhitespace).reverse.dropWhile
    Char.isWhitespace).reverse)

/-- Python `str.lower` on one character, for the alphabets the program
meets: ASCII letters and the Russian alphabet (`А`–`Я` plus `Ё`); any
other character is unchanged. -/
def pyCharLower (c : Char) : Char :=
  if 'A' ≤ c ∧ c ≤ 'Z' then Char.ofNat (c.toNat + 32)
  else if 'А' ≤ c ∧ c ≤ 'Я' then Char.ofNat (c.toNat + 32)
  else if c = 'Ё' then 'ё'
  else c

/-- Python `str.lower()`. -/
def pyLower (s : String) : String :=
  String.mk (s.data.map pyCharLower)

/-- The value of a nonempty string of ASCII digits. -/
def digitsVal? (cs : List Char) : Option Nat :=
  if cs ≠ [] ∧ cs.all Char.isDigit then
    some (cs.foldl (fun a c => a * 10 + (c.toNat - 48)) 0)
  else none

/-- Python `int(str)` on an already-stripped string, in the forms the
program meets: an optional sign followed by ASCII digits; any other text
raises `ValueError` (`none` here). -/
def pyInt? (s : String) : Option Int :=
  match s.data with
  | '-' :: rest => (digitsVal? rest).map (fun n => -(n : Int))
  | '+' :: rest => (digitsVal? rest).map (fun n => (n : Int))
  | cs => (digitsVal? cs).map (fun n => (n : Int))

/-- The state the persistence steps act on: the in-memory collection
`self.patients` and the backing file (`none` when `patients.json` does
not exist, otherwise the JSON value its text parses to). -/
structure SysState where
  patients : List Patient
  file : Option Json

/-- The error `load_patients` reports (the caught exception's message is
printed as "Ошибка при загрузке данных"). -/
inductive LoadError where
  | parseFailure
  deriving DecidableEq, Repr

/-- `load_patients` as a step on the file state: a missing file leaves an
empty collection with no error; a present file is parsed, and on any
parse failure the handler prints the error and resets the collection to
empty.  Returns the new in-memory collection and the signalled error. -/
def load_patients_step (file : Option Json) : List RawPatient × Option LoadError :=
  match file with
  | none => ([], none)
  | some j =>
    match load_patients j with
    | some ps => (ps, none)
    | none => ([], some LoadError.parseFailure)

/-- `save_patients` as a step on the system state: serialize the
collection (a read-only fold over it) and write the file; `writeOk` says
whether the write succeeds, and on failure `leftover` is whatever content
the interrupted write left behind — the `except` handler only prints a
message.  Neither branch touches `self.patients`. -/
def save_patients_step (s : SysState) (writeOk : Bool) (leftover : Option Json) :
    SysState × Bool :=
  if writeOk then ({ s with file := some (save_patients s.patients) }, true)
  else ({ s with file := leftover }, false)

/-- C4: a failed save leaves the in-memory collection exactly as it was —
in fact neither branch of `save_patients` ever touches it, and the
serialization is a pure function of the records, so the input sequence
and its records are never mutated. -/
theorem save_failure_preserves_memory (s : SysState) (writeOk : Bool)
    (leftover : Option Json) :
    (save_patients_step s writeOk leftover).1.patients = s.patients ∧
    (writeOk = false →
      (save_patients_step s writeOk leftover).1.patients = s.patients ∧
      (save_patients_step s writeOk leftover).2 = false) := by
  cases writeOk <;> simp [save_patients_step]

/-- A record object with all fourteen keys present but a string where
the id belongs: `Patient(**d)` performs no type validation, so the
program loads such a file silently, with no load error. -/
def stringIdObj : Json :=
  Json.obj
    [ ("id", Json.str "5"),
      ("last_name", Json.str "Иванов"),
      ("first_name", Json.str "Иван"),
      ("middle_name", Json.null),
      ("birth_date", Json.str "01.01.1990"),
      ("gender", Json.str "Мужской"),
      ("address", Json.str "ул. Ленина, 1"),
      ("phone", Json.str "123"),
      ("email", Json.null),
      ("insurance_number", Json.str "123-456"),
      ("registration_date", Json.str "01.01.2024 10:00"),
      ("medical_history", Json.str "нет"),
      ("diagnosis", Json.str "нет"),
      ("attending_doctor", Json.str "Петров") ]

/-- C5: loading with no backing file yields the empty collection and no
error; loading a present file whose value the comprehension cannot turn
into records signals the load error, a distinct outcome (after which the
handler falls back to an empty collection).  A non-iterable top level
and a record object missing keys are such failures; value types are not
checked, so a record with a string in `id` still loads without error —
only shape-level and key-level malformation raises. -/
theorem load_missing_vs_malformed :
    load_patients_step none = ([], none) ∧
    (∀ j : Json, load_patients j = none →
      load_patients_step (some j) = ([], some LoadError.parseFailure)) ∧
    load_patients (Json.int 5) = none ∧
    load_patients (Json.arr [Json.obj [("id", Json.int 1)]]) = none ∧
    (load_patients (Json.arr [stringIdObj])).isSome = true ∧
    (load_patients_step (some (Json.arr [stringIdObj]))).2 = none := by
  refine ⟨rfl, ?_, rfl, rfl, rfl, rfl⟩
  intro j h
  simp [load_patients_step, h]

/-- `get_next_id`: 1 on an empty collection, otherwise
`max(patient.id for patient in self.patients) + 1` — a fold of `max`
over the ids, starting from the first.  It reads only the current
collection (a pure function of it, recomputed at every call). -/
def get_next_id (ps : List Patient) : Int :=
  match ps with
  | [] => 1
  | p :: rest => (rest.map Patient.id).foldl max p.id + 1

theorem foldl_max_mem (x : Int) (xs : List Int) : xs.foldl max x ∈ x :: xs := by
  induction xs generalizing x with
  | nil => simp
  | cons y ys ih =>
    simp only [List.foldl_cons]
    rcases List.mem_cons.mp (ih (max x y)) with h1 | h1
    · rcases max_choice x y with hm | hm
      · rw [h1, hm]; exact List.mem_cons_self _ _
      · rw [h1, hm]; exact List.mem_cons_of_mem _ (List.mem_cons_self _ _)
    · exact List.mem_cons_of_mem _ (List.mem_cons_of_mem _ h1)

theorem le_foldl_max (x : Int) (xs : List Int) :
    ∀ y ∈ x :: xs, y ≤ xs.foldl max x := by
  induction xs generalizing x with
  | nil =>
    intro y hy
    simp only [List.mem_cons, List.not_mem_nil, or_false] at hy
    simp [hy]
  | cons z zs ih =>
    intro y hy
    simp only [List.foldl_cons]
    rcases List.mem_cons.mp hy with h | h
    · calc y = x := h
        _ ≤ max x z := le_max_left x z
        _ ≤ zs.foldl max (max x z) := ih (max x z) _ (List.mem_cons_self _ _)
    · rcases List.mem_cons.mp h with h2 | h2
      · calc y = z := h2
          _ ≤ max x z := le_max_right x z
          _ ≤ zs.foldl max (max x z) := ih (max x z) _ (List.mem_cons_self _ _)
      · exact ih (max x z) y (List.mem_cons_of_mem _ h2)

/-- C2: `get_next_id` returns 1 on the empty collection; on a non-empty
collection it returns `max(ids) + 1` (every id is strictly below it, and
it is one more than an id in the collection), hence an id not present.
It is a pure function of the collection alone, recomputed at each call. -/
theorem get_next_id_spec (ps : List Patient) :
    (ps = [] → get_next_id ps = 1) ∧
    (ps ≠ [] →
      (∀ p ∈ ps, p.id + 1 ≤ get_next_id ps) ∧
      (∃ p ∈ ps, get_next_id ps = p.id + 1) ∧
      (∀ p ∈ ps, p.id ≠ get_next_id ps)) := by
  constructor
  · intro h; subst h; rfl
  · intro hne
    cases ps with
    | nil => exact absurd rfl hne
    | cons p rest =>
      have hmem := foldl_max_mem p.id (rest.map Patient.id)
      have hle := le_foldl_max p.id (rest.map Patient.id)
      refine ⟨?_, ?_, ?_⟩
      · intro q hq
        have hmemid : q.id ∈ p.id :: rest.map Patient.id := by
          rcases List.mem_cons.mp hq with h | h
          · rw [h]; exact List.mem_cons_self _ _
          · exact List.mem_cons_of_mem _ (List.mem_map_of_mem Patient.id h)
        have h2 := hle q.id hmemid
        show q.id + 1 ≤ (rest.map Patient.id).foldl max p.id + 1
        omega
      · rcases List.mem_cons.mp hmem with h | h
        · refine ⟨p, List.mem_cons_self _ _, ?_⟩
          show (rest.map Patient.id).foldl max p.id + 1 = p.id + 1
          rw [h]
        · rcases List.mem_map.mp h with ⟨q, hq, hqid⟩
          refine ⟨q, List.mem_cons_of_mem _ hq, ?_⟩
          show (rest.map Patient.id).foldl max p.id + 1 = q.id + 1
          rw [hqid]
      · intro q hq
        have hmemid : q.id ∈ p.id :: rest.map Patient.id := by
          rcases List.mem_cons.mp hq with h | h
          · rw [h]; exact List.mem_cons_self _ _
          · exact List.mem_cons_of_mem _ (List.mem_map_of_mem Patient.id h)
        have h2 := hle q.id hmemid
        show q.id ≠ (rest.map Patient.id).foldl max p.id + 1
        omega

/-- Python's `<` on strings, at the character-list level: lexicographic
comparison of Unicode code points, as non-strict `≤`. -/
def charListLeb : List Char → List Char → Bool
  | [], _ => true
  | _ :: _, [] => false
  | a :: as, b :: bs => if a < b then true else if b < a then false else charListLeb as bs

theorem charListLeb_refl (as : List Char) : charListLeb as as = true := by
  induction as with
  | nil => rfl
  | cons a as ih => simp [charListLeb, lt_irrefl, ih]

theorem charListLeb_total (as bs : List Char) :
    charListLeb as bs = true ∨ charListLeb bs as = true := by
  induction as generalizing bs with
  | nil => left; rfl
  | cons a as ih =>
    cases bs with
    | nil => right; rfl
    | cons b bs =>
      rcases lt_trichotomy a b with h | h | h
      · left; simp [charListLeb, h]
      · subst h
        rcases ih bs with h2 | h2
        · left; simp [charListLeb, lt_irrefl, h2]
        · right; simp [charListLeb, lt_irrefl, h2]
      · right; simp [charListLeb, h]

theorem charListLeb_trans (as bs cs : List Char)
    (h1 : charListLeb as bs = true) (h2 : charListLeb bs cs = true) :
    charListLeb as cs = true := by
  induction as generalizing bs cs with
  | nil => rfl
  | cons a as ih =>
    cases bs with
    | nil => simp [charListLeb] at h1
    | cons b bs =>
      cases cs with
      | nil => simp [charListLeb] at h2
      | cons c cs =>
        by_cases hab : a < b
        · by_cases hbc : b < c
          · simp [charListLeb, lt_trans hab hbc]
          · by_cases hcb : c < b
            · simp [charListLeb, hbc, hcb] at h2
            · have hb : b = c := le_antisymm (not_lt.mp hcb) (not_lt.mp hbc)
              subst hb
              simp [charListLeb, hab]
        · by_cases hba : b < a
          · simp [charListLeb, hab, hba] at h1
          · have ha : a = b := le_antisymm (not_lt.mp hba) (not_lt.mp hab)
            subst ha
            simp only [charListLeb, lt_irrefl, if_false] at h1
            by_cases hac : a < c
            · simp [charListLeb, hac]
            · by_cases hca : c < a
              · simp [charListLeb, hac, hca] at h2
              · simp only [charListLeb] at h2
                rw [if_neg hac, if_neg hca] at h2
                simp [charListLeb, hac, hca, ih bs cs h1 h2]

/-- The comparison `display_all_patients` sorts with:
`sorted(self.patients, key=lambda x: x.last_name)` compares the
`last_name` keys with Python's `str` order (code-point lexicographic). -/
def byLastName (a b : Patient) : Prop :=
  charListLeb a.last_name.data b.last_name.data = true

instance : DecidableRel byLastName :=
  fun a b => inferInstanceAs (Decidable (_ = true))

instance : IsTotal Patient byLastName :=
  ⟨fun a b => charListLeb_total a.last_name.data b.last_name.data⟩

instance : IsTrans Patient byLastName :=
  ⟨fun a b c => charListLeb_trans a.last_name.data b.last_name.data c.last_name.data⟩

/-- The sorted view `display_all_patients` prints: Python's `sorted` is a
stable ascending sort and builds a new list, which `insertionSort` with
the non-strict key comparison models exactly; `self.patients` itself is
not reassigned or reordered by the function. -/
def display_all_patients (ps : List Patient) : List Patient :=
  List.insertionSort byLastName ps

theorem filter_orderedInsert_key {α β : Type} (r : α → α → Prop) [DecidableRel r]
    (key : α → β) [DecidableEq β]
    (hne : ∀ a b, ¬ r a b → key b ≠ key a)
    (x : α) (l : List α) (k : β) :
    (List.orderedInsert r x l).filter (fun a => key a == k) =
      if key x == k then x :: l.filter (fun a => key a == k)
      else l.filter (fun a => key a == k) := by
  induction l with
  | nil =>
    by_cases h : key x = k <;>
      simp [List.orderedInsert, List.filter_cons, beq_iff_eq, h]
  | cons y ys ih =>
    by_cases hr : r x y
    · simp only [List.orderedInsert, if_pos hr, List.filter_cons]
    · have hkey := hne x y hr
      simp only [List.orderedInsert, if_neg hr, List.filter_cons, ih]
      by_cases h1 : key x = k <;> by_cases h2 : key y = k <;> simp_all
  
theorem filter_insertionSort_key {α β : Type} (r : α → α → Prop) [DecidableRel r]
    (key : α → β) [DecidableEq β]
    (hne : ∀ a b, ¬ r a b → key b ≠ key a)
    (l : List α) (k : β) :
    (List.insertionSort r l).filter (fun a => key a == k) =
      l.filter (fun a => key a == k) := by
  induction l with
  | nil => rfl
  | cons x xs ih =>
    simp only [List.insertionSort]
    rw [filter_orderedInsert_key r key hne x _ k]
    by_cases h : key x = k <;> simp [List.filter_cons, h, ih]

theorem byLastName_keys_differ (a b : Patient) (h : ¬ byLastName a b) :
    b.last_name ≠ a.last_name := by
  intro he
  exact h (by unfold byLastName; rw [he]; exact charListLeb_refl _)

/-- Modelled from the spec: the "locale-aware text comparison" the spec
asks of `listSorted`, for the program's locale (its data and interface
are Russian).  Russian collation places `Ё` between `Е` and `Ж` (and `ё`
between `е` and `ж`); other characters keep code-point order.  The key
doubles code points to make room for the two letters. -/
def ruCollationKey (c : Char) : Nat :=
  if c = 'Ё' then 2 * 0x415 + 1
  else if c = 'ё' then 2 * 0x435 + 1
  else 2 * c.toNat

/-- Lexicographic strictly-less on collation-key lists. -/
def keyListLtb : List Nat → List Nat → Bool
  | [], [] => false
  | [], _ :: _ => true
  | _ :: _, [] => false
  | a :: as, b :: bs => if a < b then true else if b < a then false else keyListLtb as bs

/-- Modelled from the spec: the locale-aware (Russian collation)
strictly-less comparison on strings. -/
def ruLtb (a b : String) : Bool :=
  keyListLtb (a.data.map ruCollationKey) (b.data.map ruCollationKey)

/-- A concrete record with the fields under test set and the rest fixed. -/
def mkPatient (pid : Int) (ln g doc : String) : Patient :=
  { id := pid, last_name := ln, first_name := "Иван", middle_name := none,
    birth_date := "01.01.1990", gender := g, address := "ул. Ленина, 1",
    phone := "123", email := none, insurance_number := "123-456",
    registration_date := "01.01.2024 10:00", medical_history := "нет",
    diagnosis := "нет", attending_doctor := doc }

/-- C6 counterexample: the program orders last names by raw Unicode code
points, not by a locale-aware comparison.  With last names "Ёлкин" and
"Абрамов", `display_all_patients` puts "Ёлкин" first (`Ё` is U+0401,
before `А` at U+0410), while the Russian locale collates "Абрамов"
strictly first — so the returned sequence is not ordered under the
locale-aware comparison. -/
theorem display_all_patients_not_locale_aware :
    (display_all_patients
        [mkPatient 1 "Ёлкин" "Мужской" "Иванов",
         mkPatient 2 "Абрамов" "Мужской" "Иванов"]).map Patient.last_name
      = ["Ёлкин", "Абрамов"] ∧
    ruLtb "Абрамов" "Ёлкин" = true ∧
    ruLtb "Ёлкин" "Абрамов" = false := by
  refine ⟨by decide, by decide, by decide⟩

/-- C6 (amended): `display_all_patients` returns the records sorted by
`last_name` under Python's default string comparison — stable,
lexicographic by Unicode code point, but not locale-aware: the output is
a permutation of the collection, sorted under the code-point order, with
records of equal `last_name` kept in stored order; the stored collection
is not mutated (the sort builds a new list from it).  On last names
["Smith", "Adams", "Jones"] the output order is
["Adams", "Jones", "Smith"]. -/
theorem display_all_patients_sorted (ps : List Patient) :
    List.Sorted byLastName (display_all_patients ps) ∧
    (display_all_patients ps).Perm ps ∧
    (∀ k : String, (display_all_patients ps).filter (fun p => p.last_name == k)
        = ps.filter (fun p => p.last_name == k)) ∧
    (display_all_patients
        [mkPatient 1 "Smith" "Мужской" "House",
         mkPatient 2 "Adams" "Женский" "House",
         mkPatient 3 "Jones" "Мужской" "House"]).map Patient.last_name
      = ["Adams", "Jones", "Smith"] := by
  refine ⟨List.sorted_insertionSort byLastName ps, List.perm_insertionSort byLastName ps,
    ?_, by decide⟩
  intro k
  exact filter_insertionSort_key byLastName Patient.last_name byLastName_keys_differ ps k

/-- `len([p for p in self.patients if p.gender == "Мужской"])`. -/
def maleCount (ps : List Patient) : Nat :=
  (ps.filter (fun p => p.gender == "Мужской")).length

/-- `len([p for p in self.patients if p.gender == "Женский"])`. -/
def femaleCount (ps : List Patient) : Nat :=
  (ps.filter (fun p => p.gender == "Женский")).length

/-- One step of the doctor grouping:
`doctors[patient.attending_doctor] = doctors.get(..., 0) + 1`.  The
association list mirrors the Python dict, whose keys iterate in
insertion (first-seen) order. -/
def bumpDoctor : List (String × Nat) → String → List (String × Nat)
  | [], d => [(d, 1)]
  | (k, n) :: rest, d =>
    if k = d then (k, n + 1) :: rest else (k, n) :: bumpDoctor rest d

/-- The doctor tally of `display_statistics`: a fold over the collection. -/
def tallyDoctors (ps : List Patient) : List (String × Nat) :=
  ps.foldl (fun acc p => bumpDoctor acc p.attending_doctor) []

/-- The comparison of `sorted(doctors.items(), key=lambda x: x[1],
reverse=True)`: descending by count; Python's sort is stable, so entries
with equal counts keep the dict's first-seen order, which the non-strict
`≥` comparison models exactly. -/
def byCountDesc (a b : String × Nat) : Prop := b.2 ≤ a.2

instance : DecidableRel byCountDesc :=
  fun a b => inferInstanceAs (Decidable (b.2 ≤ a.2))

instance : IsTotal (String × Nat) byCountDesc :=
  ⟨fun a b => le_total b.2 a.2⟩

instance : IsTrans (String × Nat) byCountDesc :=
  ⟨fun _ _ _ hab hbc => le_trans hbc hab⟩

/-- What `display_statistics` computes and prints. -/
structure Stats where
  total : Nat
  males : Nat
  females : Nat
  doctors : List (String × Nat)
  deriving DecidableEq, Repr

/-- `display_statistics`: prints nothing but "Нет данных" on an empty
collection; otherwise the total, the two gender counts and the doctor
distribution sorted by descending count. -/
def display_statistics (ps : List Patient) : Option Stats :=
  if ps = [] then none
  else some
    { total := ps.length, males := maleCount ps, females := femaleCount ps,
      doctors := List.insertionSort byCountDesc (tallyDoctors ps) }

/-- The figure the program prints for a percentage with `f"{x:.1f}"`: the
ratio `count/total*100` rounded to one decimal place, represented in
tenths of a percent (667 stands for "66.7"). -/
def pctTenths (count total : Nat) : Int :=
  round ((count : ℚ) * 1000 / total)

theorem byCountDesc_keys_differ (a b : String × Nat) (h : ¬ byCountDesc a b) :
    b.2 ≠ a.2 := by
  intro he
  exact h (le_of_eq he)

/-- C7: `display_statistics` reports the total count, the per-gender
counts, and the per-doctor counts ordered by descending count with ties
kept in first-seen order; the percentage printed for a count is
`count/total*100` to one decimal place.  On the 3-record collection
(2 male, 1 female, doctors Иванов, Иванов, Петров) it yields total 3,
males 2 (66.7%), females 1 (33.3%), and doctor Иванов with 2 (66.7%)
ranked before Петров with 1 (33.3%). -/
theorem display_statistics_spec (ps : List Patient) :
    (∀ s : Stats, display_statistics ps = some s →
      s.total = ps.length ∧ s.males = maleCount ps ∧ s.females = femaleCount ps ∧
      List.Sorted byCountDesc s.doctors ∧
      (∀ c : Nat, s.doctors.filter (fun e => e.2 == c)
          = (tallyDoctors ps).filter (fun e => e.2 == c))) ∧
    display_statistics
        [mkPatient 1 "Смирнов" "Мужской" "Иванов",
         mkPatient 2 "Кузнецова" "Женский" "Иванов",
         mkPatient 3 "Попов" "Мужской" "Петров"]
      = some { total := 3, males := 2, females := 1,
               doctors := [("Иванов", 2), ("Петров", 1)] } ∧
    pctTenths 2 3 = 667 ∧ pctTenths 1 3 = 333 := by
  refine ⟨?_, by decide, ?_, ?_⟩
  rotate_left
  · rw [pctTenths, round_eq]
    norm_num [Int.floor_eq_iff]
  · rw [pctTenths, round_eq]
    norm_num [Int.floor_eq_iff]
  intro s hs
  by_cases hps : ps = []
  · simp [display_statistics, hps] at hs
  · simp only [display_statistics, if_neg hps, Option.some.injEq] at hs
    subst hs
    refine ⟨rfl, rfl, rfl, List.sorted_insertionSort byCountDesc (tallyDoctors ps), ?_⟩
    intro c
    exact filter_insertionSort_key byCountDesc Prod.snd byCountDesc_keys_differ
      (tallyDoctors ps) c

/-- C10: a record counts toward the male or female tally only when its
`gender` equals exactly `"Мужской"` or `"Женский"` respectively, so the
two gender counts sum to at most the total; a record with any other
gender string raises the total but neither gender count. -/
theorem gender_counts_partition (ps : List Patient) :
    maleCount ps + femaleCount ps ≤ ps.length ∧
    (∀ s : Stats, display_statistics ps = some s → s.males + s.females ≤ s.total) ∧
    (∀ p : Patient, p.gender ≠ "Мужской" → p.gender ≠ "Женский" →
      maleCount (ps ++ [p]) = maleCount ps ∧
      femaleCount (ps ++ [p]) = femaleCount ps ∧
      (ps ++ [p]).length = ps.length + 1) := by
  have hmain : ∀ qs : List Patient, maleCount qs + femaleCount qs ≤ qs.length := by
    intro qs
    induction qs with
    | nil => simp [maleCount, femaleCount]
    | cons p rest ih =>
      by_cases h1 : p.gender = "Мужской" <;> by_cases h2 : p.gender = "Женский" <;>
        simp only [maleCount, femaleCount, List.filter_cons, beq_iff_eq, h1, h2,
          if_pos, if_neg, List.length_cons] at * <;>
        first
          | (exfalso; rw [h1] at h2; exact absurd h2 (by decide))
          | (simp only [if_pos rfl, List.length_cons]; omega)
          | (split_ifs <;> simp_all <;> omega)
  refine ⟨hmain ps, ?_, ?_⟩
  · intro s hs
    by_cases hps : ps = []
    · simp [display_statistics, hps] at hs
    · simp only [display_statistics, if_neg hps, Option.some.injEq] at hs
      subst hs
      exact hmain ps
  · intro p h1 h2
    refine ⟨?_, ?_, by simp⟩
    · simp [maleCount, List.filter_append, List.filter_cons, beq_iff_eq, h1]
    · simp [femaleCount, List.filter_append, List.filter_cons, beq_iff_eq, h2]

/-- The raw console entries `edit_patient` reads, one per editable field:
`gender_choice` is the first valid answer the `select_gender` loop
accepts when the gender is re-selected. -/
structure EditInputs where
  last_name : String
  first_name : String
  middle_name : String
  birth_date : String
  change_gender : String
  gender_choice : String
  address : String
  phone : String
  email : String
  insurance_number : String
  medical_history : String
  diagnosis : String
  attending_doctor : String
  deriving DecidableEq, Repr

/-- `select_gender`: the loop re-prompts until the choice is `"1"` or
`"2"`, so its value is determined by the first valid choice entered. -/
def select_gender (validChoice : String) : String :=
  if validChoice = "1" then "Мужской" else "Женский"

/-- `input(...).strip() or previous` on a required text field: a blank
(falsy) stripped entry keeps the previous value. -/
def orKeep (entered previous : String) : String :=
  if pyStrip entered = "" then previous else pyStrip entered

/-- The same for an optional field (`middle_name`, `email`): a blank
entry keeps the previous value, `None` included; a non-blank entry
becomes the new value. -/
def orKeepOpt (entered : String) (previous : Option String) : Option String :=
  if pyStrip entered = "" then previous else some (pyStrip entered)

/-- The `choice in ["1", "4"]` block of `edit_patient`: personal data
(name, birth date, and — only after answering `"да"` — the gender). -/
def editGroup1 (choice : String) (inp : EditInputs) (p : Patient) : Patient :=
  if choice = "1" ∨ choice = "4" then
    { p with
      last_name := orKeep inp.last_name p.last_name,
      first_name := orKeep inp.first_name p.first_name,
      middle_name := orKeepOpt inp.middle_name p.middle_name,
      birth_date := orKeep inp.birth_date p.birth_date,
      gender :=
        if pyLower (pyStrip inp.change_gender) = "да" then
          select_gender inp.gender_choice
        else p.gender }
  else p

/-- The `choice in ["2", "4"]` block: contact data. -/
def editGroup2 (choice : String) (inp : EditInputs) (p : Patient) : Patient :=
  if choice = "2" ∨ choice = "4" then
    { p with
      address := orKeep inp.address p.address,
      phone := orKeep inp.phone p.phone,
      email := orKeepOpt inp.email p.email,
      insurance_number := orKeep inp.insurance_number p.insurance_number }
  else p

/-- The `choice in ["3", "4"]` block: medical data. -/
def editGroup3 (choice : String) (inp : EditInputs) (p : Patient) : Patient :=
  if choice = "3" ∨ choice = "4" then
    { p with
      medical_history := orKeep inp.medical_history p.medical_history,
      diagnosis := orKeep inp.diagnosis p.diagnosis,
      attending_doctor := orKeep inp.attending_doctor p.attending_doctor }
  else p

/-- The three sequential blocks of `edit_patient` applied to the found
record (the code mutates the object's fields in place, group by group). -/
def applyEdit (choice : String) (inp : EditInputs) (p : Patient) : Patient :=
  editGroup3 choice inp (editGroup2 choice inp (editGroup1 choice inp p))

/-- Replace the first record with the given id:
`next((p for p in self.patients if p.id == patient_id), None)` finds the
first match and the code mutates that object in place. -/
def editFirst (f : Patient → Patient) (pid : Int) : List Patient → List Patient
  | [] => []
  | p :: rest => if p.id = pid then f p :: rest else p :: editFirst f pid rest

/-- How `edit_patient` ends. -/
inductive EditOutcome where
  | malformedId
  | notFound
  | edited
  deriving DecidableEq, Repr

/-- `edit_patient`: parse the entered id (`int(...)`; `ValueError` is
caught and prints "ID должен быть числом!"); look up the first record
with that id (`None` prints "Пациент с таким ID не найден!" and returns
with the collection untouched); otherwise apply the chosen group's field
updates in place — a blank entry keeps the previous value — and save. -/
def edit_patient (ps : List Patient) (rawId choice : String) (inp : EditInputs) :
    List Patient × EditOutcome :=
  match pyInt? (pyStrip rawId) with
  | none => (ps, EditOutcome.malformedId)
  | some pid =>
    match ps.find? (fun p => p.id == pid) with
    | none => (ps, EditOutcome.notFound)
    | some _ => (editFirst (applyEdit (pyStrip choice) inp) pid ps, EditOutcome.edited)

/-- How `delete_patient` ends. -/
inductive DeleteOutcome where
  | malformedId
  | notFound
  | cancelled
  | deleted
  deriving DecidableEq, Repr

/-- `delete_patient`: parse the entered id (`ValueError` prints "ID
должен быть числом!"); look up the first record (`None` prints "не
найден!" and returns); ask for confirmation, and on `"да"` rebuild the
collection without any record of that id and save, else cancel. -/
def delete_patient (ps : List Patient) (rawId confirm : String) :
    List Patient × DeleteOutcome :=
  match pyInt? (pyStrip rawId) with
  | none => (ps, DeleteOutcome.malformedId)
  | some pid =>
    match ps.find? (fun p => p.id == pid) with
    | none => (ps, DeleteOutcome.notFound)
    | some _ =>
      if pyLower (pyStrip confirm) = "да" then
        (ps.filter (fun p => p.id != pid), DeleteOutcome.deleted)
      else (ps, DeleteOutcome.cancelled)

/-- How the by-id branch of `find_patient` (search choice `"2"`) ends. -/
inductive FindOutcome where
  | malformedId
  | results (found : List Patient)
  deriving DecidableEq, Repr

/-- The by-id branch of `find_patient`: the search term is stripped and
lowercased, then `int(...)` parses it (`ValueError` prints "ID должен
быть числом!"); otherwise every record with that id is shown. -/
def find_patient_by_id (ps : List Patient) (rawTerm : String) : FindOutcome :=
  match pyInt? (pyLower (pyStrip rawTerm)) with
  | none => FindOutcome.malformedId
  | some n => FindOutcome.results (ps.filter (fun p => p.id == n))

/-- What one pass of `edit_patient`'s field updates preserves in one
record (`p` before, `q` after): the id and registration date always (no
assignment to them exists), and every field whose group was not chosen
or whose entry was blank (for the gender: the re-selection question not
answered `"да"`). -/
def FieldsPreserved (c : String) (inp : EditInputs) (p q : Patient) : Prop :=
  q.id = p.id ∧
  q.registration_date = p.registration_date ∧
  ((¬ (c = "1" ∨ c = "4") ∨ pyStrip inp.last_name = "") → q.last_name = p.last_name) ∧
  ((¬ (c = "1" ∨ c = "4") ∨ pyStrip inp.first_name = "") → q.first_name = p.first_name) ∧
  ((¬ (c = "1" ∨ c = "4") ∨ pyStrip inp.middle_name = "") → q.middle_name = p.middle_name) ∧
  ((¬ (c = "1" ∨ c = "4") ∨ pyStrip inp.birth_date = "") → q.birth_date = p.birth_date) ∧
  ((¬ (c = "1" ∨ c = "4") ∨ pyLower (pyStrip inp.change_gender) ≠ "да") → q.gender = p.gender) ∧
  ((¬ (c = "2" ∨ c = "4") ∨ pyStrip inp.address = "") → q.address = p.address) ∧
  ((¬ (c = "2" ∨ c = "4") ∨ pyStrip inp.phone = "") → q.phone = p.phone) ∧
  ((¬ (c = "2" ∨ c = "4") ∨ pyStrip inp.email = "") → q.email = p.email) ∧
  ((¬ (c = "2" ∨ c = "4") ∨ pyStrip inp.insurance_number = "") → q.insurance_number = p.insurance_number) ∧
  ((¬ (c = "3" ∨ c = "4") ∨ pyStrip inp.medical_history = "") → q.medical_history = p.medical_history) ∧
  ((¬ (c = "3" ∨ c = "4") ∨ pyStrip inp.diagnosis = "") → q.diagnosis = p.diagnosis) ∧
  ((¬ (c = "3" ∨ c = "4") ∨ pyStrip inp.attending_doctor = "") → q.attending_doctor = p.attending_doctor)

theorem fieldsPreserved_refl (c : String) (inp : EditInputs) (p : Patient) :
    FieldsPreserved c inp p p :=
  ⟨rfl, rfl, fun _ => rfl, fun _ => rfl, fun _ => rfl, fun _ => rfl, fun _ => rfl,
   fun _ => rfl, fun _ => rfl, fun _ => rfl, fun _ => rfl, fun _ => rfl,
   fun _ => rfl, fun _ => rfl⟩

theorem fieldsPreserved_trans (c : String) (inp : EditInputs) (p q r : Patient)
    (h1 : FieldsPreserved c inp p q) (h2 : FieldsPreserved c inp q r) :
    FieldsPreserved c inp p r := by
  obtain ⟨a1, a2, a3, a4, a5, a6, a7, a8, a9, a10, a11, a12, a13, a14⟩ := h1
  obtain ⟨b1, b2, b3, b4, b5, b6, b7, b8, b9, b10, b11, b12, b13, b14⟩ := h2
  exact ⟨b1.trans a1, b2.trans a2,
    fun h => (b3 h).trans (a3 h), fun h => (b4 h).trans (a4 h),
    fun h => (b5 h).trans (a5 h), fun h => (b6 h).trans (a6 h),
    fun h => (b7 h).trans (a7 h), fun h => (b8 h).trans (a8 h),
    fun h => (b9 h).trans (a9 h), fun h => (b10 h).trans (a10 h),
    fun h => (b11 h).trans (a11 h), fun h => (b12 h).trans (a12 h),
    fun h => (b13 h).trans (a13 h), fun h => (b14 h).trans (a14 h)⟩

theorem editGroup1_fields (c : String) (inp : EditInputs) (p : Patient) :
    FieldsPreserved c inp p (editGroup1 c inp p) := by
  by_cases hg : c = "1" ∨ c = "4"
  · unfold editGroup1
    rw [if_pos hg]
    refine ⟨rfl, rfl, ?_, ?_, ?_, ?_, ?_, fun _ => rfl, fun _ => rfl, fun _ => rfl,
        fun _ => rfl, fun _ => rfl, fun _ => rfl, fun _ => rfl⟩ <;>
      intro h <;> rcases h with h | h
    · exact absurd hg h
    · simp [orKeep, h]
    · exact absurd hg h
    · simp [orKeep, h]
    · exact absurd hg h
    · simp [orKeepOpt, h]
    · exact absurd hg h
    · simp [orKeep, h]
    · exact absurd hg h
    · show (if pyLower (pyStrip inp.change_gender) = "да" then
          select_gender inp.gender_choice else p.gender) = p.gender
      rw [if_neg h]
  · unfold editGroup1
    rw [if_neg hg]
    exact fieldsPreserved_refl c inp p

theorem editGroup2_fields (c : String) (inp : EditInputs) (p : Patient) :
    FieldsPreserved c inp p (editGroup2 c inp p) := by
  unfold editGroup2
  split_ifs with hg
  · refine ⟨rfl, rfl, fun _ => rfl, fun _ => rfl, fun _ => rfl, fun _ => rfl,
      fun _ => rfl, ?_, ?_, ?_, ?_, fun _ => rfl, fun _ => rfl, fun _ => rfl⟩ <;>
      intro h <;> rcases h with h | h
    · exact absurd hg h
    · simp [orKeep, h]
    · exact absurd hg h
    · simp [orKeep, h]
    · exact absurd hg h
    · simp [orKeepOpt, h]
    · exact absurd hg h
    · simp [orKeep, h]
  · exact fieldsPreserved_refl c inp p

theorem editGroup3_fields (c : String) (inp : EditInputs) (p : Patient) :
    FieldsPreserved c inp p (editGroup3 c inp p) := by
  unfold editGroup3
  split_ifs with hg
  · refine ⟨rfl, rfl, fun _ => rfl, fun _ => rfl, fun _ => rfl, fun _ => rfl,
      fun _ => rfl, fun _ => rfl, fun _ => rfl, fun _ => rfl, fun _ => rfl,
      ?_, ?_, ?_⟩ <;>
      intro h <;> rcases h with h | h
    · exact absurd hg h
    · simp [orKeep, h]
    · exact absurd hg h
    · simp [orKeep, h]
    · exact absurd hg h
    · simp [orKeep, h]
  · exact fieldsPreserved_refl c inp p

theorem applyEdit_fields (c : String) (inp : EditInputs) (p : Patient) :
    FieldsPreserved c inp p (applyEdit c inp p) :=
  fieldsPreserved_trans c inp p _ _
    (fieldsPreserved_trans c inp p _ _ (editGroup1_fields c inp p)
      (editGroup2_fields c inp (editGroup1 c inp p)))
    (editGroup3_fields c inp (editGroup2 c inp (editGroup1 c inp p)))

/-- What one `edit_patient` call guarantees record-by-record: a record
whose id is not the target is untouched, and even the edited record
keeps its id, registration date, and every field not provided with a
non-blank entry. -/
def EditPreserves (c : String) (inp : EditInputs) (pid : Int) (p q : Patient) : Prop :=
  (p.id ≠ pid → q = p) ∧ FieldsPreserved c inp p q

theorem editPreserves_refl (c : String) (inp : EditInputs) (pid : Int) (p : Patient) :
    EditPreserves c inp pid p p :=
  ⟨fun _ => rfl, fieldsPreserved_refl c inp p⟩

theorem editFirst_forall₂ (f : Patient → Patient) (pid : Int)
    (R : Patient → Patient → Prop)
    (hf : ∀ p, p.id = pid → R p (f p)) (hrefl : ∀ p, R p p) :
    ∀ ps : List Patient, List.Forall₂ R ps (editFirst f pid ps) := by
  intro ps
  induction ps with
  | nil => exact List.Forall₂.nil
  | cons p rest ih =>
    unfold editFirst
    by_cases h : p.id = pid
    · rw [if_pos h]
      exact List.Forall₂.cons (hf p h) (List.forall₂_same.mpr (fun x _ => hrefl x))
    · rw [if_neg h]
      exact List.Forall₂.cons (hrefl p) ih

/-- C3: an edit with a well-formed id changes only the fields provided
with a non-blank entry — a field whose group was not chosen or whose
entry was blank keeps its prior value — and never changes the `id` or
`registration_date` of any record; a record whose id is not the target
is untouched entirely; and an id matching no record prints "не найден"
and leaves the collection unchanged. -/
theorem edit_patient_frame (ps : List Patient) (rawId choice : String)
    (inp : EditInputs) (pid : Int) (hid : pyInt? (pyStrip rawId) = some pid) :
    ((∀ p ∈ ps, p.id ≠ pid) →
      edit_patient ps rawId choice inp = (ps, EditOutcome.notFound)) ∧
    List.Forall₂ (EditPreserves (pyStrip choice) inp pid) ps
      (edit_patient ps rawId choice inp).1 := by
  constructor
  · intro hnone
    have hfind : ps.find? (fun p => p.id == pid) = none := by
      apply List.find?_eq_none.mpr
      intro p hp
      simpa using hnone p hp
    simp [edit_patient, hid, hfind]
  · cases hfind : ps.find? (fun p => p.id == pid) with
    | none =>
      simp only [edit_patient, hid, hfind]
      exact List.forall₂_same.mpr
        (fun p _ => editPreserves_refl (pyStrip choice) inp pid p)
    | some q =>
      simp only [edit_patient, hid, hfind]
      exact editFirst_forall₂ (applyEdit (pyStrip choice) inp) pid
        (EditPreserves (pyStrip choice) inp pid)
        (fun p hp => ⟨fun h => absurd hp h, applyEdit_fields (pyStrip choice) inp p⟩)
        (editPreserves_refl (pyStrip choice) inp pid) ps

/-- All-blank console entries: every field keeps its previous value. -/
def blankEdit : EditInputs :=
  { last_name := "", first_name := "", middle_name := "", birth_date := "",
    change_gender := "", gender_choice := "", address := "", phone := "",
    email := "", insurance_number := "", medical_history := "",
    diagnosis := "", attending_doctor := "" }

/-- Witness for `edit_patient_frame` at a concrete collection, id and
console entries. -/
theorem edit_patient_frame_witness :
    ((∀ p ∈ [mkPatient 1 "Иванов" "Мужской" "Петров"], p.id ≠ (2 : Int)) →
      edit_patient [mkPatient 1 "Иванов" "Мужской" "Петров"] "2" "4" blankEdit
        = ([mkPatient 1 "Иванов" "Мужской" "Петров"], EditOutcome.notFound)) ∧
    List.Forall₂ (EditPreserves (pyStrip "4") blankEdit 2)
      [mkPatient 1 "Иванов" "Мужской" "Петров"]
      (edit_patient [mkPatient 1 "Иванов" "Мужской" "Петров"] "2" "4" blankEdit).1 :=
  edit_patient_frame [mkPatient 1 "Иванов" "Мужской" "Петров"] "2" "4" blankEdit 2
    (by decide)

/-- C8: deleting a well-formed id that matches a record (and confirming
with `"да"`) removes every record with that id — a subsequent lookup by
that id finds nothing — and keeps exactly the other records; an id
matching no record prints "не найден" and leaves the collection
unchanged. -/
theorem delete_patient_spec (ps : List Patient) (rawId confirm : String) (pid : Int)
    (hid : pyInt? (pyStrip rawId) = some pid) :
    ((∀ p ∈ ps, p.id ≠ pid) →
      delete_patient ps rawId confirm = (ps, DeleteOutcome.notFound)) ∧
    ((∃ p ∈ ps, p.id = pid) → pyLower (pyStrip confirm) = "да" →
      (delete_patient ps rawId confirm).2 = DeleteOutcome.deleted ∧
      (delete_patient ps rawId confirm).1.find? (fun p => p.id == pid) = none ∧
      (delete_patient ps rawId confirm).1 = ps.filter (fun p => p.id != pid)) := by
  constructor
  · intro hnone
    have hfind : ps.find? (fun p => p.id == pid) = none := by
      apply List.find?_eq_none.mpr
      intro p hp
      simpa using hnone p hp
    simp [delete_patient, hid, hfind]
  · rintro ⟨q, hq, hqid⟩ hconfirm
    cases hfind : ps.find? (fun p => p.id == pid) with
    | none =>
      exact absurd (by simpa using List.find?_eq_none.mp hfind q hq) (by simp [hqid])
    | some w =>
      simp only [delete_patient, hid, hfind, if_pos hconfirm]
      refine ⟨trivial, ?_, trivial⟩
      apply List.find?_eq_none.mpr
      intro p hp
      have := (List.mem_filter.mp hp).2
      simpa using this
  
/-- Witness for `delete_patient_spec` at a concrete collection: deleting
id 1 out of a two-record collection removes exactly that record. -/
theorem delete_patient_spec_witness :
    (delete_patient
        [mkPatient 1 "Иванов" "Мужской" "Петров",
         mkPatient 2 "Смирнов" "Мужской" "Петров"] "1" "да").2
      = DeleteOutcome.deleted ∧
    (delete_patient
        [mkPatient 1 "Иванов" "Мужской" "Петров",
         mkPatient 2 "Смирнов" "Мужской" "Петров"] "1" "да").1.find?
        (fun p => p.id == (1 : Int)) = none ∧
    (delete_patient
        [mkPatient 1 "Иванов" "Мужской" "Петров",
         mkPatient 2 "Смирнов" "Мужской" "Петров"] "1" "да").1
      = [mkPatient 1 "Иванов" "Мужской" "Петров",
         mkPatient 2 "Смирнов" "Мужской" "Петров"].filter
          (fun p => p.id != (1 : Int)) :=
  (delete_patient_spec
      [mkPatient 1 "Иванов" "Мужской" "Петров",
       mkPatient 2 "Смирнов" "Мужской" "Петров"] "1" "да" 1 (by decide)).2
    ⟨mkPatient 1 "Иванов" "Мужской" "Петров", by decide, rfl⟩ (by decide)

/-- Modelled from the spec: "a well-formed positive integer" — the
entered text parses as an integer and that integer is strictly
positive. -/
def WellFormedPositiveId (s : String) : Prop :=
  ∃ n : Int, pyInt? (pyStrip s) = some n ∧ 0 < n

/-- C9 counterexample: the entry `"0"` is not a well-formed positive
integer, yet none of the three id-taking operations reports a validation
error for it — `int("0")` succeeds, positivity is never checked, and the
lookup proceeds and reports "not found" (an empty result for search). -/
theorem id_zero_lookup_not_validation :
    ¬ WellFormedPositiveId "0" ∧
    find_patient_by_id [mkPatient 1 "Иванов" "Мужской" "Петров"] "0"
      = FindOutcome.results [] ∧
    edit_patient [mkPatient 1 "Иванов" "Мужской" "Петров"] "0" "4" blankEdit
      = ([mkPatient 1 "Иванов" "Мужской" "Петров"], EditOutcome.notFound) ∧
    delete_patient [mkPatient 1 "Иванов" "Мужской" "Петров"] "0" "да"
      = ([mkPatient 1 "Иванов" "Мужской" "Петров"], DeleteOutcome.notFound) := by
  refine ⟨?_, by decide, by decide, by decide⟩
  rintro ⟨n, hn, hpos⟩
  have h0 : pyInt? (pyStrip "0") = some 0 := by decide
  rw [h0] at hn
  obtain rfl : (0 : Int) = n := Option.some.inj hn
  exact lt_irrefl 0 hpos

/-- C9 (amended): every id-taking operation checks that the entered text
is a well-formed integer before the lookup — a non-integer entry yields
the malformed-id outcome, which is distinct from not-found — but
positivity is not validated: a well-formed id, positive or not, always
goes through to the lookup. -/
theorem id_validation_spec (ps : List Patient) (s choice confirm : String)
    (inp : EditInputs) :
    (pyInt? (pyLower (pyStrip s)) = none →
      find_patient_by_id ps s = FindOutcome.malformedId) ∧
    (pyInt? (pyStrip s) = none →
      edit_patient ps s choice inp = (ps, EditOutcome.malformedId) ∧
      delete_patient ps s confirm = (ps, DeleteOutcome.malformedId)) ∧
    (∀ n : Int, pyInt? (pyStrip s) = some n →
      (edit_patient ps s choice inp).2 ≠ EditOutcome.malformedId ∧
      (delete_patient ps s confirm).2 ≠ DeleteOutcome.malformedId) ∧
    EditOutcome.malformedId ≠ EditOutcome.notFound ∧
    DeleteOutcome.malformedId ≠ DeleteOutcome.notFound := by
  refine ⟨?_, ?_, ?_, by decide, by decide⟩
  · intro h
    simp [find_patient_by_id, h]
  · intro h
    exact ⟨by simp [edit_patient, h], by simp [delete_patient, h]⟩
  · intro n h
    constructor
    · simp only [edit_patient, h]
      cases ps.find? (fun p => p.id == n) <;> simp
    · simp only [delete_patient, h]
      cases ps.find? (fun p => p.id == n) with
      | none => simp
      | some w => split_ifs <;> simp
